import Mathlib

/-!
Shallow embedding of the bump-propagation core of a workspace version tool:
semver versions and their precedence order, bump magnitudes, bump
instructions, the stable/prerelease reconciliation function, and the
recursive bump-tree builder with its per-package highest-bump maps.
Translated from src/common/bump_tree/{instruction,node,tree}.rs; the version
arithmetic (`Version.bump`, `Version.with_prerelease`, the Major/Minor/Patch
`BumpType` and its order, `BumpType.from_str`) is absent from the sources
(the checked-in version_extension.rs is an older iteration using
Breaking/Compatible) and is modelled from the spec as marked below.
-/

deriving instance DecidableEq for Except

namespace Cwvt

/-- Identifier making up a semver prerelease tag: numeric or alphanumeric. -/
inductive PreIdent where
  | num (n : Nat)
  | str (s : String)
deriving DecidableEq

/-- Semantic version as held by the semver crate: numeric triple plus an
optional prerelease tag (build metadata is never produced nor compared by the
tool, so it is omitted). -/
structure Version where
  major : Nat
  minor : Nat
  patch : Nat
  pre : List PreIdent
deriving DecidableEq

/-- Compare two lists of characters by code point, lexicographically. -/
def strCmpAux : List Char → List Char → Ordering
  | [], [] => Ordering.eq
  | [], _ :: _ => Ordering.lt
  | _ :: _, [] => Ordering.gt
  | a :: as, b :: bs =>
    if a.toNat < b.toNat then Ordering.lt
    else if b.toNat < a.toNat then Ordering.gt
    else strCmpAux as bs

/-- ASCII-lexicographic comparison of alphanumeric identifiers. -/
def strCmp (a b : String) : Ordering := strCmpAux a.toList b.toList

/-- Semver precedence of single prerelease identifiers: numeric identifiers
compare numerically and are always lower than alphanumeric identifiers. -/
def PreIdent.cmp : PreIdent → PreIdent → Ordering
  | PreIdent.num a, PreIdent.num b =>
      if a < b then Ordering.lt else if b < a then Ordering.gt else Ordering.eq
  | PreIdent.num _, PreIdent.str _ => Ordering.lt
  | PreIdent.str _, PreIdent.num _ => Ordering.gt
  | PreIdent.str a, PreIdent.str b => strCmp a b

/-- Elementwise comparison of prerelease identifier lists; a strict prefix is
smaller (a larger set of fields has higher precedence). -/
def identsCmp : List PreIdent → List PreIdent → Ordering
  | [], [] => Ordering.eq
  | [], _ :: _ => Ordering.lt
  | _ :: _, [] => Ordering.gt
  | a :: as, b :: bs =>
    match PreIdent.cmp a b with
    | Ordering.eq => identsCmp as bs
    | o => o

/-- Comparison of whole prerelease tags: an empty tag (a normal release)
has higher precedence than any nonempty tag at the same numeric triple. -/
def preCmp : List PreIdent → List PreIdent → Ordering
  | [], [] => Ordering.eq
  | [], _ :: _ => Ordering.gt
  | _ :: _, [] => Ordering.lt
  | a :: as, b :: bs => identsCmp (a :: as) (b :: bs)

/-- Semver precedence as implemented by the Ord instance of the semver crate
(with build metadata absent): numeric triple first, then prerelease tag. -/
def Version.cmp (a b : Version) : Ordering :=
  if a.major < b.major then Ordering.lt else if b.major < a.major then Ordering.gt
  else if a.minor < b.minor then Ordering.lt else if b.minor < a.minor then Ordering.gt
  else if a.patch < b.patch then Ordering.lt else if b.patch < a.patch then Ordering.gt
  else preCmp a.pre b.pre

/-- Strict semver order. -/
def Version.lt (a b : Version) : Prop := Version.cmp a b = Ordering.lt

instance (a b : Version) : Decidable (Version.lt a b) := by
  unfold Version.lt; infer_instance

/-- Boolean `a >= b` in semver order, as used by the reconciler's guard. -/
def Version.geb (a b : Version) : Bool :=
  match Version.cmp a b with
  | Ordering.lt => false
  | _ => true

/-- Translation of Rust `std::cmp::max` over semver versions: returns the
greater argument, the second one on ties. -/
def Version.vmax (a b : Version) : Version :=
  if Version.cmp b a = Ordering.lt then a else b

/-- Modelled from the spec: the totally ordered BumpMagnitude enum of §3
(Major > Minor > Patch); its defining file is the newer version_extension.rs,
which is absent from the checked-in sources. -/
inductive BumpType where
  | Major
  | Minor
  | Patch
deriving DecidableEq, BEq

/-- Rank realising the spec order Major > Minor > Patch. -/
def BumpType.rank : BumpType → Nat
  | BumpType.Patch => 0
  | BumpType.Minor => 1
  | BumpType.Major => 2

/-- Modelled from the spec: the end-user-initiated flag threaded through the
version arithmetic of §4.1; defined in the missing newer version_extension.rs. -/
inductive EndUserInitiated where
  | Yes
  | No
deriving DecidableEq

/-- Modelled from the spec: `bump(version, magnitude, end_user_initiated)` of
§4.1 (missing from the checked-in version_extension.rs). Major user-initiated
increments major and zeroes minor/patch; Major derived does so only when
major > 0 and otherwise increments minor and zeroes patch; Minor increments
minor and zeroes patch; Patch increments patch. The result is a plain release
version (prerelease tags are attached separately by `with_prerelease`). -/
def Version.bump (v : Version) (m : BumpType) (u : EndUserInitiated) : Version :=
  match m, u with
  | BumpType.Major, EndUserInitiated.Yes => ⟨v.major + 1, 0, 0, []⟩
  | BumpType.Major, EndUserInitiated.No =>
    if v.major > 0 then ⟨v.major + 1, 0, 0, []⟩
    else ⟨v.major, v.minor + 1, 0, []⟩
  | BumpType.Minor, _ => ⟨v.major, v.minor + 1, 0, []⟩
  | BumpType.Patch, _ => ⟨v.major, v.minor, v.patch + 1, []⟩

/-- Modelled from the spec: `with_prerelease` of §4.1 (missing from the
checked-in version_extension.rs) attaches the fixed prerelease label used on
the prerelease line; the repository tests pin the label to "alpha". -/
def Version.with_prerelease (v : Version) : Version :=
  { v with pre := [PreIdent.str ("alpha")] }

/-- Package state as consumed by the core: name, git branch, current version,
and the names of its direct non-dev workspace dependents. -/
structure Package where
  name : String
  branch : String
  version : Version
  dependents : List String
deriving DecidableEq

/-- Per-channel workspace: branch name plus name-keyed packages. -/
structure Workspace where
  branch_name : String
  packages : List Package

/-- Name lookup in a workspace's package table. -/
def Workspace.find? (w : Workspace) (name : String) : Option Package :=
  w.packages.find? (fun p => p.name == name)

/-- Translation of BumpInstruction: a package together with the version it is
to be bumped to. -/
structure BumpInstruction where
  package : Package
  next_version : Version
deriving DecidableEq

/-- Translation of BumpInstruction::bump_type (instruction.rs lines 20-33):
the magnitude derived by comparing next_version with the current version,
with the 0.x minor-is-breaking special case. -/
def BumpInstruction.bump_type (i : BumpInstruction) : BumpType :=
  let cur_version := i.package.version
  if i.next_version.major > cur_version.major
      ∨ (i.next_version.major = 0 ∧ cur_version.major = 0
          ∧ i.next_version.minor > cur_version.minor) then
    BumpType.Major
  else if i.next_version.minor > cur_version.minor then
    BumpType.Minor
  else
    BumpType.Patch

/-- Translation of `impl PartialEq for BumpInstruction` (instruction.rs lines
156-162): equality compares package name, package branch and derived
magnitude only. -/
def BumpInstruction.beq (a b : BumpInstruction) : Bool :=
  a.package.name == b.package.name
    && a.package.branch == b.package.branch
    && a.bump_type == b.bump_type

/-- Lower-cased code point of an ASCII character, for the case-insensitive
token match. -/
def lowerCode (c : Char) : Nat :=
  if 65 ≤ c.toNat ∧ c.toNat ≤ 90 then c.toNat + 32 else c.toNat

/-- Case-insensitive (ASCII) string equality. -/
def eqCaseInsensitive (a b : String) : Bool :=
  a.toList.map lowerCode == b.toList.map lowerCode

/-- Modelled from the spec: `BumpType::from_str` (missing from the checked-in
version_extension.rs): the magnitude token must case-insensitively match one
of major/minor/patch, else the instruction is invalid (§4.2). -/
def BumpType.from_str (s : String) : Except String BumpType :=
  if eqCaseInsensitive s ("major") then Except.ok BumpType.Major
  else if eqCaseInsensitive s ("minor") then Except.ok BumpType.Minor
  else if eqCaseInsensitive s ("patch") then Except.ok BumpType.Patch
  else Except.error (("Invalid bump type: ") ++ s)

/-- Release channel selector (tree.rs lines 13-17). -/
inductive ReleaseChannel where
  | Stable
  | Prerelease
deriving DecidableEq

/-- Split an instruction string at its first space, Rust `splitn(2, ' ')`:
the part before the space and, when present, the remainder. -/
def splitFirstSpace (s : String) : String × Option String :=
  let cs := s.toList
  let name := cs.takeWhile (fun c => c ≠ ' ')
  match cs.dropWhile (fun c => c ≠ ' ') with
  | [] => (String.mk name, none)
  | _ :: tail => (String.mk name, some (String.mk tail))

/-- Translation of BumpInstruction::from_str (instruction.rs lines 35-153):
parse "name magnitude", validate the package against the requested channel,
and produce the concrete instruction (with channel-specific no-op and error
cases). -/
def BumpInstruction.from_str (stable_workspace prerelease_workspace : Workspace)
    (s : String) (release_channel : ReleaseChannel) :
    Except String (Option BumpInstruction) :=
  let parts := splitFirstSpace s
  let name := parts.1
  let semverPart : Except String BumpType :=
    match parts.2 with
    | some t => BumpType.from_str t
    | none => Except.error (("Invalid Bump Instruction: ") ++ s)
  match semverPart with
  | Except.error e => Except.error e
  | Except.ok semver_part =>
    match stable_workspace.find? name, release_channel with
    | none, ReleaseChannel.Stable =>
      Except.error (("Package ") ++ name ++ (" not found on branch ")
        ++ prerelease_workspace.branch_name)
    | none, ReleaseChannel.Prerelease => Except.ok none
    | some stable_package, _ =>
      let cur_stable_version := stable_package.version
      match release_channel, prerelease_workspace.find? name with
      | ReleaseChannel.Stable, _ =>
        Except.ok (some ⟨stable_package, cur_stable_version.bump semver_part EndUserInitiated.Yes⟩)
      | ReleaseChannel.Prerelease, none =>
        Except.error (("Package ") ++ name ++ (" not found on branch ")
          ++ prerelease_workspace.branch_name)
      | ReleaseChannel.Prerelease, some prerelease_package =>
        let cur_prerelease_version := prerelease_package.version
        match semver_part with
        | BumpType.Major =>
          if cur_prerelease_version.major > cur_stable_version.major then Except.ok none
          else Except.ok (some ⟨prerelease_package,
            (cur_stable_version.bump BumpType.Major EndUserInitiated.Yes).with_prerelease⟩)
        | BumpType.Minor =>
          if cur_prerelease_version.major > cur_stable_version.major
              ∨ cur_prerelease_version.minor > cur_stable_version.minor then Except.ok none
          else Except.ok (some ⟨prerelease_package,
            (cur_stable_version.bump BumpType.Minor EndUserInitiated.Yes).with_prerelease⟩)
        | BumpType.Patch =>
          if cur_prerelease_version.major > cur_stable_version.major
              ∨ cur_prerelease_version.minor > cur_stable_version.minor
              ∨ cur_prerelease_version.patch > cur_stable_version.patch then Except.ok none
          else Except.ok (some ⟨prerelease_package,
            (cur_stable_version.bump BumpType.Patch EndUserInitiated.Yes).with_prerelease⟩)

/-- First reconciliation candidate (instruction.rs lines 190-210), from the
stable change: the source wraps each branch in Some and flattens, which is a
plain map since the inner value is always Some. -/
def candidate1 (stable_bump_instruction : Option BumpInstruction) : Option Version :=
  stable_bump_instruction.map (fun i =>
    match i.bump_type with
    | BumpType.Major | BumpType.Minor =>
      (i.next_version.bump BumpType.Major EndUserInitiated.No).with_prerelease
    | BumpType.Patch =>
      (i.next_version.bump BumpType.Patch EndUserInitiated.No).with_prerelease)

/-- Second reconciliation candidate (instruction.rs lines 213-231), from the
prerelease parent's instruction, computed against the current stable version. -/
def candidate2 (cur_stable_version : Version)
    (prerelease_parent_bump_instruction : Option BumpInstruction) : Option Version :=
  prerelease_parent_bump_instruction.map (fun i =>
    match i.bump_type with
    | BumpType.Major =>
      (cur_stable_version.bump BumpType.Major EndUserInitiated.No).with_prerelease
    | BumpType.Minor | BumpType.Patch =>
      (cur_stable_version.bump BumpType.Patch EndUserInitiated.No).with_prerelease)

/-- Highest of the present candidates (instruction.rs lines 233-238). -/
def highestCandidate (c1 c2 : Option Version) : Option Version :=
  match c1, c2 with
  | some a, some b => some (Version.vmax a b)
  | some a, none => some a
  | none, some b => some b
  | none, none => none

/-- Translation of compute_prerelease_bump_instruction (instruction.rs lines
167-253): cross-channel reconciliation with the strictly-greater guard. -/
def compute_prerelease_bump_instruction
    (prerelease_package stable_package : Option Package)
    (stable_bump_instruction prerelease_parent_bump_instruction : Option BumpInstruction) :
    Option BumpInstruction :=
  match prerelease_package with
  | none => none
  | some prerelease_package =>
    let cur_prerelease_version := prerelease_package.version
    match stable_package with
    | none => none
    | some stable_package =>
      let cur_stable_version := stable_package.version
      match highestCandidate (candidate1 stable_bump_instruction)
          (candidate2 cur_stable_version prerelease_parent_bump_instruction) with
      | none => none
      | some v =>
        if Version.geb cur_prerelease_version v then none
        else some ⟨prerelease_package, v⟩

/-- Translation of BumpNode (node.rs lines 4-9): an optional instruction per
channel plus the child nodes. -/
inductive BumpNode where
  | mk (stable : Option BumpInstruction) (prerelease : Option BumpInstruction)
      (children : List BumpNode)

/-- Stable-channel instruction of a node. -/
def BumpNode.stable : BumpNode → Option BumpInstruction
  | BumpNode.mk s _ _ => s

/-- Prerelease-channel instruction of a node. -/
def BumpNode.prerelease : BumpNode → Option BumpInstruction
  | BumpNode.mk _ p _ => p

/-- Children of a node. -/
def BumpNode.children : BumpNode → List BumpNode
  | BumpNode.mk _ _ c => c

/-- Translation of BumpNode::package_name (node.rs lines 17-27): the name
carried by whichever instruction is present; `none` models the panic branch
taken when a node has neither instruction. -/
def BumpNode.package_name (n : BumpNode) : Option String :=
  match n.stable with
  | some i => some i.package.name
  | none =>
    match n.prerelease with
    | some i => some i.package.name
    | none => none

/-- Equality of optional instructions, lifting BumpInstruction's PartialEq. -/
def optInstrBeq (a b : Option BumpInstruction) : Bool :=
  match a, b with
  | none, none => true
  | some i, some j => BumpInstruction.beq i j
  | _, _ => false

/-- Translation of `impl PartialEq for BumpNode` (node.rs lines 11-15):
nodes are equal iff their stable and prerelease instructions are equal;
children play no role. -/
def BumpNode.beq (a b : BumpNode) : Bool :=
  optInstrBeq a.stable b.stable && optInstrBeq a.prerelease b.prerelease

/-- Lookup in a name-keyed association list, standing for HashMap::get. -/
def alookup : List (String × BumpNode) → String → Option BumpNode
  | [], _ => none
  | (k, v) :: rest, name => if k = name then some v else alookup rest name

/-- Replace the value stored under an existing key, standing for the
in-place write of HashMap::entry(..).and_modify. -/
def areplace : List (String × BumpNode) → String → BumpNode → List (String × BumpNode)
  | [], _, _ => []
  | (k, v) :: rest, name, node =>
    if k = name then (k, node) :: rest else (k, v) :: areplace rest name node

/-- Rust's `Option<BumpType>` strict order with None below Some, at the spec
order Major > Minor > Patch on magnitudes. -/
def optRankLt : Option BumpType → Option BumpType → Bool
  | none, none => false
  | none, some _ => true
  | some _, none => false
  | some a, some b => a.rank < b.rank

/-- Translation of the entry().and_modify(..).or_insert(..) registration used
by new_node (tree.rs lines 100-126), for one channel selected by `get`:
insert when absent, replace only when the new node's magnitude on that
channel strictly exceeds the recorded one. -/
def updateHighest (get : BumpNode → Option BumpInstruction)
    (m : List (String × BumpNode)) (name : String) (instr : BumpInstruction)
    (node : BumpNode) : List (String × BumpNode) :=
  match alookup m name with
  | none => (name, node) :: m
  | some e =>
    if optRankLt ((get e).map BumpInstruction.bump_type) (some instr.bump_type)
    then areplace m name node
    else m

/-- One-channel registration of a freshly built node into a highest map. -/
def regMap (get : BumpNode → Option BumpInstruction)
    (m : List (String × BumpNode)) (node : BumpNode) : List (String × BumpNode) :=
  match get node with
  | none => m
  | some i => updateHighest get m i.package.name i node

/-- Mutable state of the tree builder: the two (read-only) workspaces and the
two highest-bump maps (tree.rs lines 19-25). -/
structure TreeState where
  stable_workspace : Workspace
  prerelease_workspace : Workspace
  highest_stable : List (String × BumpNode)
  highest_prerelease : List (String × BumpNode)

/-- Registration side effect of new_node (tree.rs lines 100-126): record the
node in each channel's highest map for which it carries an instruction. -/
def registerNode (st : TreeState) (node : BumpNode) : TreeState :=
  { st with
    highest_stable := regMap BumpNode.stable st.highest_stable node
    highest_prerelease := regMap BumpNode.prerelease st.highest_prerelease node }

/-- Union of the direct workspace dependents of whichever instruction sides
are present (tree.rs lines 74-79); the HashSet is rendered as dedup of the
concatenation, the iteration order being irrelevant to the results proved
below. -/
def childNames (stable_bump_instruction prerelease_bump_instruction : Option BumpInstruction) :
    List String :=
  ((stable_bump_instruction.toList ++ prerelease_bump_instruction.toList).flatMap
    (fun b => b.package.dependents)).eraseDups

/-- Stable-side instruction derived for a dependent (tree.rs lines 141-160):
requires both a stable parent instruction and a stable dependent package;
a Major parent forces a derived Major, anything else a derived Patch. -/
def deriveChildStable (stable_child_package : Option Package)
    (stable_parent_bump_instruction : Option BumpInstruction) : Option BumpInstruction :=
  match stable_child_package, stable_parent_bump_instruction with
  | some c, some i =>
    let cur_version := c.version
    match i.bump_type with
    | BumpType.Major => some ⟨c, cur_version.bump BumpType.Major EndUserInitiated.No⟩
    | BumpType.Minor | BumpType.Patch =>
      some ⟨c, cur_version.bump BumpType.Patch EndUserInitiated.No⟩
  | _, _ => none

/-- Translation of derive_child_node (tree.rs lines 131-170), parameterised
by the recursive node constructor `nn` (instantiated with `newNode fuel`). -/
def deriveChildNode
    (nn : TreeState → Option BumpInstruction → Option BumpInstruction → TreeState × BumpNode)
    (st : TreeState)
    (stable_parent_bump_instruction prerelease_parent_bump_instruction : Option BumpInstruction)
    (stable_child_package prerelease_child_package : Option Package) : TreeState × BumpNode :=
  let stable_bump_instruction :=
    deriveChildStable stable_child_package stable_parent_bump_instruction
  let prerelease_bump_instruction := compute_prerelease_bump_instruction
    prerelease_child_package stable_child_package
    stable_bump_instruction prerelease_parent_bump_instruction
  nn st stable_bump_instruction prerelease_bump_instruction

/-- Loop of new_node over the dependent names (tree.rs lines 81-91), looking
each name up in both workspaces and deriving a child node, threading the
builder state left to right. -/
def buildChildren
    (nn : TreeState → Option BumpInstruction → Option BumpInstruction → TreeState × BumpNode)
    (sp pp : Option BumpInstruction) :
    TreeState → List String → TreeState × List BumpNode
  | st, [] => (st, [])
  | st, name :: rest =>
    let r1 := deriveChildNode nn st sp pp
      (st.stable_workspace.find? name) (st.prerelease_workspace.find? name)
    let r2 := buildChildren nn sp pp r1.1 rest
    (r2.1, r1.2 :: r2.2)

/-- Translation of BumpTree::new_node (tree.rs lines 68-129): derive and build
the children, assemble the node, then register it in the highest maps. The
fuel bounds the recursion depth, which the source leaves unbounded (the
workspace graph is assumed acyclic); any fuel at least the dependency depth
reproduces the source behaviour. -/
def newNode : Nat → TreeState → Option BumpInstruction → Option BumpInstruction →
    TreeState × BumpNode
  | 0, st, s, p =>
    let node := BumpNode.mk s p []
    (registerNode st node, node)
  | fuel + 1, st, s, p =>
    let r := buildChildren (newNode fuel) s p st (childNames s p)
    let node := BumpNode.mk s p r.2
    (registerNode r.1 node, node)

/-- Loop of BumpTree::new over the root instructions (tree.rs lines 42-58):
a Prerelease-channel root populates only the prerelease side; a Stable root
carries the instruction plus its reconciled prerelease side. -/
def buildRoots (fuel : Nat) : TreeState → List BumpInstruction → ReleaseChannel →
    TreeState × List BumpNode
  | st, [], _ => (st, [])
  | st, i :: rest, rc =>
    let r :=
      match rc with
      | ReleaseChannel.Prerelease => newNode fuel st none (some i)
      | ReleaseChannel.Stable => newNode fuel st (some i)
        (compute_prerelease_bump_instruction
          (st.prerelease_workspace.find? i.package.name)
          (st.stable_workspace.find? i.package.name)
          (some i) none)
    let r2 := buildRoots fuel r.1 rest rc
    (r2.1, r.2 :: r2.2)

/-- Result of tree construction (tree.rs lines 19-25). -/
structure BumpTree where
  root_nodes : List BumpNode
  highest_stable : List (String × BumpNode)
  highest_prerelease : List (String × BumpNode)
  stable_workspace : Workspace
  prerelease_workspace : Workspace

/-- Translation of BumpTree::new (tree.rs lines 28-62): start from empty
highest maps and build every root. -/
def BumpTree.new (fuel : Nat) (stable_workspace prerelease_workspace : Workspace)
    (root_instructions : List BumpInstruction) (release_channel : ReleaseChannel) : BumpTree :=
  let st0 : TreeState := ⟨stable_workspace, prerelease_workspace, [], []⟩
  let r := buildRoots fuel st0 root_instructions release_channel
  ⟨r.2, r.1.highest_stable, r.1.highest_prerelease,
    r.1.stable_workspace, r.1.prerelease_workspace⟩

mutual

/-- Nodes of a subtree in order of construction (children are built and
registered before their parent). -/
def postNodes : BumpNode → List BumpNode
  | BumpNode.mk s p children => postForest children ++ [BumpNode.mk s p children]

/-- Nodes of a forest in order of construction. -/
def postForest : List BumpNode → List BumpNode
  | [] => []
  | n :: rest => postNodes n ++ postForest rest

end

/-! Order infrastructure: reflexivity and swap symmetry of the semver
comparison, and the lexicographic comparison on numeric triples that drives
the strictness arguments. -/

theorem strCmpAux_refl : ∀ l : List Char, strCmpAux l l = Ordering.eq := by
  intro l
  induction l with
  | nil => rfl
  | cons a as ih => simp [strCmpAux, ih]

theorem preIdentCmp_refl : ∀ x : PreIdent, PreIdent.cmp x x = Ordering.eq := by
  intro x
  cases x with
  | num n => simp [PreIdent.cmp]
  | str s => simp [PreIdent.cmp, strCmp, strCmpAux_refl]

theorem identsCmp_refl : ∀ l : List PreIdent, identsCmp l l = Ordering.eq := by
  intro l
  induction l with
  | nil => rfl
  | cons a as ih => simp [identsCmp, preIdentCmp_refl, ih]

theorem preCmp_refl : ∀ l : List PreIdent, preCmp l l = Ordering.eq := by
  intro l
  cases l with
  | nil => rfl
  | cons a as => simp [preCmp, identsCmp_refl]

theorem versionCmp_refl (a : Version) : Version.cmp a a = Ordering.eq := by
  simp [Version.cmp, preCmp_refl]

theorem strCmpAux_swap : ∀ a b : List Char, strCmpAux a b = (strCmpAux b a).swap := by
  intro a
  induction a with
  | nil => intro b; cases b <;> rfl
  | cons x xs ih =>
    intro b
    cases b with
    | nil => rfl
    | cons y ys =>
      simp only [strCmpAux]
      rcases Nat.lt_trichotomy x.toNat y.toNat with h | h | h
      · simp [h, Nat.not_lt.mpr (Nat.le_of_lt h), Ordering.swap]
      · simp [h, Nat.lt_irrefl, ih]
      · simp [h, Nat.not_lt.mpr (Nat.le_of_lt h), Ordering.swap]

theorem preIdentCmp_swap : ∀ x y : PreIdent, PreIdent.cmp x y = (PreIdent.cmp y x).swap := by
  intro x y
  cases x with
  | num n =>
    cases y with
    | num m =>
      simp only [PreIdent.cmp]
      rcases Nat.lt_trichotomy n m with h | h | h
      · simp [h, Nat.not_lt.mpr (Nat.le_of_lt h), Ordering.swap]
      · simp [h, Nat.lt_irrefl, Ordering.swap]
      · simp [h, Nat.not_lt.mpr (Nat.le_of_lt h), Ordering.swap]
    | str t => rfl
  | str s =>
    cases y with
    | num m => rfl
    | str t =>
      simp only [PreIdent.cmp, strCmp]
      exact strCmpAux_swap s.toList t.toList

theorem identsCmp_swap : ∀ a b : List PreIdent, identsCmp a b = (identsCmp b a).swap := by
  intro a
  induction a with
  | nil => intro b; cases b <;> rfl
  | cons x xs ih =>
    intro b
    cases b with
    | nil => rfl
    | cons y ys =>
      simp only [identsCmp]
      rw [preIdentCmp_swap]
      cases PreIdent.cmp y x <;> simp [Ordering.swap, ih]

theorem preCmp_swap : ∀ a b : List PreIdent, preCmp a b = (preCmp b a).swap := by
  intro a b
  cases a with
  | nil => cases b <;> rfl
  | cons x xs =>
    cases b with
    | nil => rfl
    | cons y ys => simp [preCmp, identsCmp_swap (x :: xs) (y :: ys)]

theorem versionCmp_swap (a b : Version) : Version.cmp a b = (Version.cmp b a).swap := by
  unfold Version.cmp
  rcases Nat.lt_trichotomy a.major b.major with h1 | h1 | h1
  · simp [h1, Nat.not_lt.mpr (Nat.le_of_lt h1), Ordering.swap]
  · rcases Nat.lt_trichotomy a.minor b.minor with h2 | h2 | h2
    · simp [h1, h2, Nat.lt_irrefl, Nat.not_lt.mpr (Nat.le_of_lt h2), Ordering.swap]
    · rcases Nat.lt_trichotomy a.patch b.patch with h3 | h3 | h3
      · simp [h1, h2, h3, Nat.lt_irrefl, Nat.not_lt.mpr (Nat.le_of_lt h3), Ordering.swap]
      · simp [h1, h2, h3, Nat.lt_irrefl, preCmp_swap a.pre b.pre]
      · simp [h1, h2, h3, Nat.lt_irrefl, Nat.not_lt.mpr (Nat.le_of_lt h3), Ordering.swap]
    · simp [h1, h2, Nat.lt_irrefl, Nat.not_lt.mpr (Nat.le_of_lt h2), Ordering.swap]
  · simp [h1, Nat.not_lt.mpr (Nat.le_of_lt h1), Ordering.swap]

/-- Strict lexicographic order on the numeric triple, ignoring prereleases. -/
def tripleLt (a b : Version) : Prop :=
  a.major < b.major
    ∨ (a.major = b.major
        ∧ (a.minor < b.minor ∨ (a.minor = b.minor ∧ a.patch < b.patch)))

theorem tripleLt_cmp {a b : Version} (h : tripleLt a b) : Version.cmp a b = Ordering.lt := by
  unfold tripleLt at h
  unfold Version.cmp
  split_ifs <;> first | rfl | omega

theorem not_tripleLt_of_cmp_ne_lt {a b : Version} (h : Version.cmp a b ≠ Ordering.lt) :
    ¬ tripleLt a b :=
  fun ht => h (tripleLt_cmp ht)

theorem tripleLt_chain {s c1 c2 : Version} (h1 : tripleLt s c1) (h2 : ¬ tripleLt c2 c1) :
    tripleLt s c2 := by
  unfold tripleLt at h1 h2 ⊢
  omega

theorem bump_with_pre_tripleLt (v : Version) (m : BumpType) (u : EndUserInitiated) :
    tripleLt v ((v.bump m u).with_prerelease) := by
  cases m <;> cases u <;>
    simp only [Version.bump, Version.with_prerelease, tripleLt] <;>
    (try split_ifs) <;> simp

theorem geb_false_iff (a b : Version) : Version.geb a b = false ↔ Version.cmp a b = Ordering.lt := by
  unfold Version.geb
  cases hc : Version.cmp a b <;> simp

theorem lt_vmax_left {s c1 c2 : Version} (h : tripleLt s c1) :
    Version.lt s (Version.vmax c1 c2) := by
  unfold Version.vmax
  split_ifs with hc
  · exact tripleLt_cmp h
  · exact tripleLt_cmp (tripleLt_chain h (not_tripleLt_of_cmp_ne_lt hc))

theorem vmax_not_lt_left (a b : Version) : ¬ Version.lt (Version.vmax a b) a := by
  unfold Version.vmax Version.lt
  split_ifs with hc
  · rw [versionCmp_refl]; simp
  · exact hc

theorem vmax_not_lt_right (a b : Version) : ¬ Version.lt (Version.vmax a b) b := by
  unfold Version.vmax Version.lt
  split_ifs with hc
  · intro hl
    rw [versionCmp_swap, hc] at hl
    simp [Ordering.swap] at hl
  · rw [versionCmp_refl]; simp

theorem vmax_eq_or (a b : Version) : Version.vmax a b = a ∨ Version.vmax a b = b := by
  unfold Version.vmax
  split_ifs <;> simp

/-! Claim theorems over the instruction layer. -/

/-- C4: the derived magnitude of a BumpInstruction is Major exactly when
next.major > cur.major or cur.major = 0 ∧ next.major = 0 ∧
next.minor > cur.minor; otherwise Minor exactly when next.minor > cur.minor;
otherwise Patch; including the spec's concrete examples for current versions
1.0.0 and 0.1.0. -/
theorem bump_type_spec :
    (∀ i : BumpInstruction,
      (i.bump_type = BumpType.Major ↔
        (i.next_version.major > i.package.version.major
          ∨ (i.package.version.major = 0 ∧ i.next_version.major = 0
              ∧ i.next_version.minor > i.package.version.minor)))
      ∧ (¬ (i.next_version.major > i.package.version.major
            ∨ (i.package.version.major = 0 ∧ i.next_version.major = 0
                ∧ i.next_version.minor > i.package.version.minor)) →
          (i.bump_type = BumpType.Minor ↔ i.next_version.minor > i.package.version.minor))
      ∧ (¬ (i.next_version.major > i.package.version.major
            ∨ (i.package.version.major = 0 ∧ i.next_version.major = 0
                ∧ i.next_version.minor > i.package.version.minor)) →
          ¬ i.next_version.minor > i.package.version.minor →
          i.bump_type = BumpType.Patch))
    ∧ (BumpInstruction.mk ⟨("p"), ("b"), ⟨1, 0, 0, []⟩, []⟩ ⟨2, 0, 0, []⟩).bump_type
        = BumpType.Major
    ∧ (BumpInstruction.mk ⟨("p"), ("b"), ⟨1, 0, 0, []⟩, []⟩ ⟨1, 1, 0, []⟩).bump_type
        = BumpType.Minor
    ∧ (BumpInstruction.mk ⟨("p"), ("b"), ⟨1, 0, 0, []⟩, []⟩ ⟨1, 0, 1, []⟩).bump_type
        = BumpType.Patch
    ∧ (BumpInstruction.mk ⟨("p"), ("b"), ⟨0, 1, 0, []⟩, []⟩ ⟨1, 0, 0, []⟩).bump_type
        = BumpType.Major
    ∧ (BumpInstruction.mk ⟨("p"), ("b"), ⟨0, 1, 0, []⟩, []⟩ ⟨0, 2, 0, []⟩).bump_type
        = BumpType.Major
    ∧ (BumpInstruction.mk ⟨("p"), ("b"), ⟨0, 1, 0, []⟩, []⟩ ⟨0, 1, 1, []⟩).bump_type
        = BumpType.Patch := by
  refine ⟨?_, by decide, by decide, by decide, by decide, by decide, by decide⟩
  intro i
  simp only [BumpInstruction.bump_type]
  split_ifs with h1 h2 <;> simp <;> omega

theorem bumpType_beq_iff (a b : BumpType) : (a == b) = true ↔ a = b := by
  cases a <;> cases b <;> decide

/-- C10: BumpInstruction equality compares only package name, package branch
and derived magnitude, so instructions with different next versions but equal
magnitudes are equal; BumpNode equality compares only the two optional
instructions (children are ignored). -/
theorem instruction_eq_ignores_next_version
    (i1 i2 : BumpInstruction)
    (hname : i1.package.name = i2.package.name)
    (hbranch : i1.package.branch = i2.package.branch)
    (hmag : i1.bump_type = i2.bump_type) :
    BumpInstruction.beq i1 i2 = true
      ∧ (∀ n1 n2 : BumpNode, BumpNode.beq n1 n2 =
          (optInstrBeq n1.stable n2.stable && optInstrBeq n1.prerelease n2.prerelease))
      ∧ (∀ i j : BumpInstruction, BumpInstruction.beq i j = true ↔
          (i.package.name = j.package.name ∧ i.package.branch = j.package.branch
            ∧ i.bump_type = j.bump_type)) := by
  refine ⟨?_, fun n1 n2 => rfl, ?_⟩
  · simp [BumpInstruction.beq, hname, hbranch, hmag, bumpType_beq_iff]
  · intro i j
    simp [BumpInstruction.beq, bumpType_beq_iff, and_assoc]

/-- Witness for C10: two instructions on the same package with different
next versions (1.1.0 vs 1.2.0 over current 1.0.0, both Minor) are equal. -/
theorem instruction_eq_ignores_next_version_witness :
    BumpInstruction.beq ⟨⟨("x"), ("b"), ⟨1, 0, 0, []⟩, []⟩, ⟨1, 1, 0, []⟩⟩
        ⟨⟨("x"), ("b"), ⟨1, 0, 0, []⟩, []⟩, ⟨1, 2, 0, []⟩⟩ = true
      ∧ (∀ n1 n2 : BumpNode, BumpNode.beq n1 n2 =
          (optInstrBeq n1.stable n2.stable && optInstrBeq n1.prerelease n2.prerelease))
      ∧ (∀ i j : BumpInstruction, BumpInstruction.beq i j = true ↔
          (i.package.name = j.package.name ∧ i.package.branch = j.package.branch
            ∧ i.bump_type = j.bump_type)) :=
  instruction_eq_ignores_next_version
    ⟨⟨("x"), ("b"), ⟨1, 0, 0, []⟩, []⟩, ⟨1, 1, 0, []⟩⟩
    ⟨⟨("x"), ("b"), ⟨1, 0, 0, []⟩, []⟩, ⟨1, 2, 0, []⟩⟩
    (by decide) (by decide) (by decide)

/-- C2: the reconciler returns none when either counterpart package is
absent; candidate1 maps a Major or Minor stable instruction to a derived
major bump of the stable next version (prerelease-tagged) and a Patch one to
a derived patch bump; candidate2 maps a Major prerelease parent to a derived
major bump of the current stable version and a Minor or Patch parent to a
derived patch bump; the final candidate is the semver-greater of the present
candidates, the single one when only one is present, none when neither. -/
theorem prerelease_reconcile_candidates :
    (∀ sp si ppi, compute_prerelease_bump_instruction none sp si ppi = none)
    ∧ (∀ pp si ppi, compute_prerelease_bump_instruction pp none si ppi = none)
    ∧ (∀ i : BumpInstruction,
        candidate1 (some i) = some (
          if i.bump_type = BumpType.Major ∨ i.bump_type = BumpType.Minor then
            (i.next_version.bump BumpType.Major EndUserInitiated.No).with_prerelease
          else
            (i.next_version.bump BumpType.Patch EndUserInitiated.No).with_prerelease))
    ∧ candidate1 none = none
    ∧ (∀ (v : Version) (i : BumpInstruction),
        candidate2 v (some i) = some (
          if i.bump_type = BumpType.Major then
            (v.bump BumpType.Major EndUserInitiated.No).with_prerelease
          else
            (v.bump BumpType.Patch EndUserInitiated.No).with_prerelease))
    ∧ (∀ v, candidate2 v none = none)
    ∧ (∀ a b, highestCandidate (some a) (some b) = some (Version.vmax a b)
        ∧ (Version.vmax a b = a ∨ Version.vmax a b = b)
        ∧ ¬ Version.lt (Version.vmax a b) a ∧ ¬ Version.lt (Version.vmax a b) b)
    ∧ (∀ a, highestCandidate (some a) none = some a)
    ∧ (∀ b, highestCandidate none (some b) = some b)
    ∧ highestCandidate none none = none
    ∧ (∀ (p q : Package) si ppi,
        compute_prerelease_bump_instruction (some p) (some q) si ppi =
          (match highestCandidate (candidate1 si) (candidate2 q.version ppi) with
            | none => none
            | some v =>
              if Version.geb p.version v then none
              else some ⟨p, v⟩)) := by
  refine ⟨fun sp si ppi => rfl, ?_, ?_, rfl, ?_, fun v => rfl, ?_, fun a => rfl,
    fun b => rfl, rfl, fun p q si ppi => rfl⟩
  · intro pp si ppi
    cases pp <;> rfl
  · intro i
    cases hbt : i.bump_type <;> simp [candidate1, hbt]
  · intro v i
    cases hbt : i.bump_type <;> simp [candidate2, hbt]
  · intro a b
    exact ⟨rfl, vmax_eq_or a b, vmax_not_lt_left a b, vmax_not_lt_right a b⟩

/-- C3: whenever the reconciler produces an instruction, its next version is
strictly semver-greater than the current prerelease version and strictly
greater than the stable version it was derived against (the stable
instruction's next version when supplied, the current stable version
otherwise); and a final candidate not strictly greater than the current
prerelease version makes the reconciler return none. -/
theorem prerelease_reconcile_strict :
    (∀ pp sp si ppi instr,
      compute_prerelease_bump_instruction pp sp si ppi = some instr →
        ∃ p q, pp = some p ∧ sp = some q
          ∧ Version.lt p.version instr.next_version
          ∧ Version.lt
              (match si with | some i => i.next_version | none => q.version)
              instr.next_version)
    ∧ (∀ (p q : Package) si ppi v,
        highestCandidate (candidate1 si) (candidate2 q.version ppi) = some v →
        Version.geb p.version v = true →
        compute_prerelease_bump_instruction (some p) (some q) si ppi = none) := by
  constructor
  · intro pp sp si ppi instr h
    cases pp with
    | none => simp [compute_prerelease_bump_instruction] at h
    | some p =>
      cases sp with
      | none => simp [compute_prerelease_bump_instruction] at h
      | some q =>
        refine ⟨p, q, rfl, rfl, ?_⟩
        simp only [compute_prerelease_bump_instruction] at h
        cases hc : highestCandidate (candidate1 si) (candidate2 q.version ppi) with
        | none => rw [hc] at h; simp at h
        | some v =>
          rw [hc] at h
          dsimp only at h
          by_cases hgb : Version.geb p.version v = true
          · rw [if_pos hgb] at h
            exact absurd h (by simp)
          · rw [if_neg hgb] at h
            have hiv : instr = BumpInstruction.mk p v := (Option.some.inj h).symm
            have hgf : Version.geb p.version v = false := by
              revert hgb
              cases Version.geb p.version v <;> simp
            have hlt : Version.lt p.version v := (geb_false_iff _ _).mp hgf
            subst hiv
            refine ⟨hlt, ?_⟩
            cases si with
            | some i =>
              cases hbt : i.bump_type with
              | Major =>
                have hc1 : candidate1 (some i) =
                    some ((i.next_version.bump BumpType.Major EndUserInitiated.No).with_prerelease) := by
                  simp [candidate1, hbt]
                rw [hc1] at hc
                cases ppi with
                | none =>
                  simp [candidate2, highestCandidate] at hc
                  rw [← hc]
                  exact tripleLt_cmp (bump_with_pre_tripleLt _ _ _)
                | some j =>
                  cases hbtj : j.bump_type <;>
                    simp [candidate2, hbtj, highestCandidate] at hc <;>
                    (rw [← hc]; exact lt_vmax_left (bump_with_pre_tripleLt _ _ _))
              | Minor =>
                have hc1 : candidate1 (some i) =
                    some ((i.next_version.bump BumpType.Major EndUserInitiated.No).with_prerelease) := by
                  simp [candidate1, hbt]
                rw [hc1] at hc
                cases ppi with
                | none =>
                  simp [candidate2, highestCandidate] at hc
                  rw [← hc]
                  exact tripleLt_cmp (bump_with_pre_tripleLt _ _ _)
                | some j =>
                  cases hbtj : j.bump_type <;>
                    simp [candidate2, hbtj, highestCandidate] at hc <;>
                    (rw [← hc]; exact lt_vmax_left (bump_with_pre_tripleLt _ _ _))
              | Patch =>
                have hc1 : candidate1 (some i) =
                    some ((i.next_version.bump BumpType.Patch EndUserInitiated.No).with_prerelease) := by
                  simp [candidate1, hbt]
                rw [hc1] at hc
                cases ppi with
                | none =>
                  simp [candidate2, highestCandidate] at hc
                  rw [← hc]
                  exact tripleLt_cmp (bump_with_pre_tripleLt _ _ _)
                | some j =>
                  cases hbtj : j.bump_type <;>
                    simp [candidate2, hbtj, highestCandidate] at hc <;>
                    (rw [← hc]; exact lt_vmax_left (bump_with_pre_tripleLt _ _ _))
            | none =>
              cases ppi with
              | none => simp [candidate1, candidate2, highestCandidate] at hc
              | some j =>
                cases hbtj : j.bump_type <;>
                  simp [candidate1, candidate2, hbtj, highestCandidate] at hc <;>
                  (rw [← hc]; exact tripleLt_cmp (bump_with_pre_tripleLt _ _ _))
  · intro p q si ppi v hc hg
    simp only [compute_prerelease_bump_instruction]
    rw [hc]
    simp [hg]

/-- Witness for C3 at a concrete reconciliation: stable package at 1.0.0
bumped to 2.0.0 (Major) forces the prerelease package at 1.0.0-alpha to
3.0.0-alpha, strictly above both 1.0.0-alpha and 2.0.0. -/
theorem prerelease_reconcile_strict_witness :
    ∃ p q,
      some (Package.mk ("a") ("p") ⟨1, 0, 0, [PreIdent.str ("alpha")]⟩ []) = some p
      ∧ some (Package.mk ("a") ("s") ⟨1, 0, 0, []⟩ []) = some q
      ∧ Version.lt p.version
          (BumpInstruction.mk (Package.mk ("a") ("p") ⟨1, 0, 0, [PreIdent.str ("alpha")]⟩ [])
            ⟨3, 0, 0, [PreIdent.str ("alpha")]⟩).next_version
      ∧ Version.lt
          (match some (BumpInstruction.mk (Package.mk ("a") ("s") ⟨1, 0, 0, []⟩ []) ⟨2, 0, 0, []⟩) with
            | some i => i.next_version
            | none => q.version)
          (BumpInstruction.mk (Package.mk ("a") ("p") ⟨1, 0, 0, [PreIdent.str ("alpha")]⟩ [])
            ⟨3, 0, 0, [PreIdent.str ("alpha")]⟩).next_version :=
  prerelease_reconcile_strict.1
    (some (Package.mk ("a") ("p") ⟨1, 0, 0, [PreIdent.str ("alpha")]⟩ []))
    (some (Package.mk ("a") ("s") ⟨1, 0, 0, []⟩ []))
    (some (BumpInstruction.mk (Package.mk ("a") ("s") ⟨1, 0, 0, []⟩ []) ⟨2, 0, 0, []⟩))
    none
    (BumpInstruction.mk (Package.mk ("a") ("p") ⟨1, 0, 0, [PreIdent.str ("alpha")]⟩ [])
      ⟨3, 0, 0, [PreIdent.str ("alpha")]⟩)
    (by decide)

/-! Resolver claims. -/

/-- Spec-side condition of §4.2: the current prerelease version is already
ahead of the current stable version at the requested magnitude tier. -/
def tierAhead (mag : BumpType) (preV stableV : Version) : Prop :=
  match mag with
  | BumpType.Major => preV.major > stableV.major
  | BumpType.Minor => preV.major > stableV.major ∨ preV.minor > stableV.minor
  | BumpType.Patch => preV.major > stableV.major ∨ preV.minor > stableV.minor
      ∨ preV.patch > stableV.patch

instance (mag : BumpType) (a b : Version) : Decidable (tierAhead mag a b) := by
  unfold tierAhead; cases mag <;> infer_instance

/-- C5: on the Prerelease channel with the named package present in both
workspaces, from_str returns Ok(None) exactly when the current prerelease
version is already ahead of stable at the requested tier, and otherwise
produces bump(current_stable, magnitude, user-initiated).with_prerelease;
with the spec's examples at stable 1.0.0 under a major request. -/
theorem from_str_prerelease_spec
    (sws pws : Workspace) (s name tok : String) (mag : BumpType)
    (spkg ppkg : Package)
    (hsplit : splitFirstSpace s = (name, some tok))
    (htok : BumpType.from_str tok = Except.ok mag)
    (hs : sws.find? name = some spkg)
    (hp : pws.find? name = some ppkg) :
    (BumpInstruction.from_str sws pws s ReleaseChannel.Prerelease = Except.ok none ↔
      tierAhead mag ppkg.version spkg.version)
    ∧ (¬ tierAhead mag ppkg.version spkg.version →
        BumpInstruction.from_str sws pws s ReleaseChannel.Prerelease =
          Except.ok (some ⟨ppkg, (spkg.version.bump mag EndUserInitiated.Yes).with_prerelease⟩))
    ∧ BumpInstruction.from_str ⟨("s"), [⟨("a"), ("s"), ⟨1, 0, 0, []⟩, []⟩]⟩
        ⟨("p"), [⟨("a"), ("p"), ⟨2, 0, 0, [PreIdent.str ("alpha")]⟩, []⟩]⟩
        ("a major") ReleaseChannel.Prerelease = Except.ok none
    ∧ BumpInstruction.from_str ⟨("s"), [⟨("a"), ("s"), ⟨1, 0, 0, []⟩, []⟩]⟩
        ⟨("p"), [⟨("a"), ("p"), ⟨1, 1, 0, [PreIdent.str ("alpha")]⟩, []⟩]⟩
        ("a major") ReleaseChannel.Prerelease =
        Except.ok (some ⟨⟨("a"), ("p"), ⟨1, 1, 0, [PreIdent.str ("alpha")]⟩, []⟩,
          ⟨2, 0, 0, [PreIdent.str ("alpha")]⟩⟩)
    ∧ BumpInstruction.from_str ⟨("s"), [⟨("a"), ("s"), ⟨1, 0, 0, []⟩, []⟩]⟩
        ⟨("p"), [⟨("a"), ("p"), ⟨1, 0, 1, [PreIdent.str ("alpha")]⟩, []⟩]⟩
        ("a major") ReleaseChannel.Prerelease =
        Except.ok (some ⟨⟨("a"), ("p"), ⟨1, 0, 1, [PreIdent.str ("alpha")]⟩, []⟩,
          ⟨2, 0, 0, [PreIdent.str ("alpha")]⟩⟩) := by
  have key : BumpInstruction.from_str sws pws s ReleaseChannel.Prerelease =
      (match mag with
        | BumpType.Major =>
          if ppkg.version.major > spkg.version.major then Except.ok none
          else Except.ok (some ⟨ppkg,
            (spkg.version.bump BumpType.Major EndUserInitiated.Yes).with_prerelease⟩)
        | BumpType.Minor =>
          if ppkg.version.major > spkg.version.major
              ∨ ppkg.version.minor > spkg.version.minor then Except.ok none
          else Except.ok (some ⟨ppkg,
            (spkg.version.bump BumpType.Minor EndUserInitiated.Yes).with_prerelease⟩)
        | BumpType.Patch =>
          if ppkg.version.major > spkg.version.major
              ∨ ppkg.version.minor > spkg.version.minor
              ∨ ppkg.version.patch > spkg.version.patch then Except.ok none
          else Except.ok (some ⟨ppkg,
            (spkg.version.bump BumpType.Patch EndUserInitiated.Yes).with_prerelease⟩)) := by
    simp only [BumpInstruction.from_str, hsplit, htok, hs, hp]
    cases mag <;> rfl
  refine ⟨?_, ?_, by decide, by decide, by decide⟩
  · rw [key]
    cases mag <;> simp only [tierAhead] <;> split_ifs with hcond <;> simp [hcond]
  · intro hn
    rw [key]
    revert hn
    cases mag <;> simp only [tierAhead] <;> intro hn <;> rw [if_neg hn]

/-- Error-result discriminator for the resolver. -/
def isErrRes {α : Type} : Except String α → Bool
  | Except.error _ => true
  | Except.ok _ => false

/-- Magnitude token of an instruction string is missing or invalid. -/
def tokenInvalid (s : String) : Bool :=
  match (splitFirstSpace s).2 with
  | none => true
  | some t =>
    match BumpType.from_str t with
    | Except.error _ => true
    | Except.ok _ => false

/-- C7: from_str errors exactly when the magnitude token is missing or
invalid, or the channel is Stable with the package absent from the stable
workspace, or the channel is Prerelease with the package present on stable
but absent from the prerelease workspace; a Prerelease request for a package
with no stable counterpart yields Ok(None). -/
theorem from_str_error_spec :
    ∀ (sws pws : Workspace) (s : String) (rc : ReleaseChannel),
      (isErrRes (BumpInstruction.from_str sws pws s rc) = true ↔
        (tokenInvalid s = true
          ∨ (rc = ReleaseChannel.Stable ∧ sws.find? (splitFirstSpace s).1 = none)
          ∨ (rc = ReleaseChannel.Prerelease
              ∧ (sws.find? (splitFirstSpace s).1).isSome = true
              ∧ pws.find? (splitFirstSpace s).1 = none)))
      ∧ (rc = ReleaseChannel.Prerelease → tokenInvalid s = false →
          sws.find? (splitFirstSpace s).1 = none →
          BumpInstruction.from_str sws pws s rc = Except.ok none) := by
  intro sws pws s rc
  rcases hsp : splitFirstSpace s with ⟨name, rest⟩
  cases rest with
  | none =>
    constructor
    · simp [BumpInstruction.from_str, isErrRes, tokenInvalid, hsp]
    · intro _ htok
      rw [tokenInvalid, hsp] at htok
      simp at htok
  | some t =>
    cases htok : BumpType.from_str t with
    | error e =>
      constructor
      · simp [BumpInstruction.from_str, isErrRes, tokenInvalid, hsp, htok]
      · intro _ htk
        rw [tokenInvalid, hsp] at htk
        simp only [htok] at htk
        simp at htk
    | ok m =>
      cases hfind : sws.find? name with
      | none =>
        cases rc with
        | Stable =>
          constructor
          · simp [BumpInstruction.from_str, isErrRes, tokenInvalid, hsp, htok, hfind]
          · intro hrc; cases hrc
        | Prerelease =>
          constructor
          · simp [BumpInstruction.from_str, isErrRes, tokenInvalid, hsp, htok, hfind]
          · intro _ _ _
            simp [BumpInstruction.from_str, hsp, htok, hfind]
      | some spkg =>
        cases rc with
        | Stable =>
          constructor
          · simp [BumpInstruction.from_str, isErrRes, tokenInvalid, hsp, htok, hfind]
          · intro hrc; cases hrc
        | Prerelease =>
          cases hpre : pws.find? name with
          | none =>
            constructor
            · simp [BumpInstruction.from_str, isErrRes, tokenInvalid, hsp, htok, hfind, hpre]
            · intro _ _ hnone
              simp at hnone
          | some ppkg =>
            constructor
            · cases m <;>
                simp only [BumpInstruction.from_str, isErrRes, tokenInvalid, hsp, htok,
                  hfind, hpre] <;>
                split_ifs <;> simp
            · intro _ _ hnone
              simp at hnone

/-- Witness for C7: a prerelease-channel request with a valid token for a
package absent from the stable workspace is Ok(None), and the error
characterisation holds at that input. -/
theorem from_str_error_spec_witness :
    (isErrRes (BumpInstruction.from_str ⟨("s"), []⟩ ⟨("p"), []⟩ ("zzz major")
        ReleaseChannel.Prerelease) = true ↔
      (tokenInvalid ("zzz major") = true
        ∨ (ReleaseChannel.Prerelease = ReleaseChannel.Stable
            ∧ Workspace.find? ⟨("s"), []⟩ (splitFirstSpace ("zzz major")).1 = none)
        ∨ (ReleaseChannel.Prerelease = ReleaseChannel.Prerelease
            ∧ (Workspace.find? ⟨("s"), []⟩ (splitFirstSpace ("zzz major")).1).isSome = true
            ∧ Workspace.find? ⟨("p"), []⟩ (splitFirstSpace ("zzz major")).1 = none)))
    ∧ BumpInstruction.from_str ⟨("s"), []⟩ ⟨("p"), []⟩ ("zzz major")
        ReleaseChannel.Prerelease = Except.ok none :=
  ⟨(from_str_error_spec ⟨("s"), []⟩ ⟨("p"), []⟩ ("zzz major") ReleaseChannel.Prerelease).1,
    (from_str_error_spec ⟨("s"), []⟩ ⟨("p"), []⟩ ("zzz major") ReleaseChannel.Prerelease).2
      rfl (by decide) (by decide)⟩

/-- Witness for C5 at stable a = 1.0.0, prerelease a = 1.1.0-alpha, major
request: the request is not a no-op and recomputes to 2.0.0-alpha. -/
theorem from_str_prerelease_spec_witness :
    (BumpInstruction.from_str ⟨("s"), [⟨("a"), ("s"), ⟨1, 0, 0, []⟩, []⟩]⟩
        ⟨("p"), [⟨("a"), ("p"), ⟨1, 1, 0, [PreIdent.str ("alpha")]⟩, []⟩]⟩
        ("a major") ReleaseChannel.Prerelease = Except.ok none ↔
      tierAhead BumpType.Major ⟨1, 1, 0, [PreIdent.str ("alpha")]⟩ ⟨1, 0, 0, []⟩) :=
  (from_str_prerelease_spec
    ⟨("s"), [⟨("a"), ("s"), ⟨1, 0, 0, []⟩, []⟩]⟩
    ⟨("p"), [⟨("a"), ("p"), ⟨1, 1, 0, [PreIdent.str ("alpha")]⟩, []⟩]⟩
    ("a major") ("a") ("major") BumpType.Major
    ⟨("a"), ("s"), ⟨1, 0, 0, []⟩, []⟩
    ⟨("a"), ("p"), ⟨1, 1, 0, [PreIdent.str ("alpha")]⟩, []⟩
    (by decide) (by decide) (by decide) (by decide)).1

/-! Concrete fixtures used by the examples and the witnesses: the spec's
a/b/c stable propagation example and a prerelease-only dependent. -/

def exPkgA : Package := ⟨("a"), ("stable"), ⟨1, 0, 0, []⟩, [("b"), ("c")]⟩

def exPkgB : Package := ⟨("b"), ("stable"), ⟨0, 1, 0, []⟩, []⟩

def exPkgC : Package := ⟨("c"), ("stable"), ⟨2, 3, 1, []⟩, []⟩

def exStableWs : Workspace := ⟨("stable"), [exPkgA, exPkgB, exPkgC]⟩

def exEmptyWs : Workspace := ⟨("prerelease"), []⟩

def exRootA : BumpInstruction := ⟨exPkgA, ⟨2, 0, 0, []⟩⟩

def exTree : BumpTree := BumpTree.new 3 exStableWs exEmptyWs [exRootA] ReleaseChannel.Stable

def exPkgPA : Package := ⟨("pa"), ("prerelease"), ⟨1, 0, 0, [PreIdent.str ("alpha")]⟩, [("pb")]⟩

def exPkgPB : Package := ⟨("pb"), ("prerelease"), ⟨1, 0, 0, [PreIdent.str ("alpha")]⟩, []⟩

def exPreWs : Workspace := ⟨("prerelease"), [exPkgPA, exPkgPB]⟩

def exRootPA : BumpInstruction := ⟨exPkgPA, ⟨2, 0, 0, [PreIdent.str ("alpha")]⟩⟩

def exPreTree : BumpTree := BumpTree.new 2 exEmptyWs exPreWs [exRootPA] ReleaseChannel.Prerelease

/-! Equation and frame lemmas for the tree builder. -/

theorem postNodes_mk (s p : Option BumpInstruction) (c : List BumpNode) :
    postNodes (BumpNode.mk s p c) = postForest c ++ [BumpNode.mk s p c] := by
  rw [postNodes]

theorem postForest_nil : postForest [] = [] := by
  rw [postForest]

theorem postForest_cons (n : BumpNode) (l : List BumpNode) :
    postForest (n :: l) = postNodes n ++ postForest l := by
  rw [postForest]

theorem newNode_node_stable (fuel : Nat) (st : TreeState) (s p : Option BumpInstruction) :
    (newNode fuel st s p).2.stable = s := by
  cases fuel <;> rfl

theorem newNode_node_prerelease (fuel : Nat) (st : TreeState) (s p : Option BumpInstruction) :
    (newNode fuel st s p).2.prerelease = p := by
  cases fuel <;> rfl

/-- Effect of one builder call on the state: the workspaces are untouched and
each highest map receives exactly the fold of the per-node registration over
the constructed nodes in construction (post-)order. -/
def nodeCharP
    (nn : TreeState → Option BumpInstruction → Option BumpInstruction → TreeState × BumpNode) :
    Prop :=
  ∀ st s p, (nn st s p).1 =
    { st with
      highest_stable :=
        List.foldl (regMap BumpNode.stable) st.highest_stable (postNodes (nn st s p).2)
      highest_prerelease :=
        List.foldl (regMap BumpNode.prerelease) st.highest_prerelease (postNodes (nn st s p).2) }

theorem deriveChildNode_char
    (nn : TreeState → Option BumpInstruction → Option BumpInstruction → TreeState × BumpNode)
    (H : nodeCharP nn) (st : TreeState)
    (a b : Option BumpInstruction) (c d : Option Package) :
    (deriveChildNode nn st a b c d).1 =
      { st with
        highest_stable :=
          List.foldl (regMap BumpNode.stable) st.highest_stable
            (postNodes (deriveChildNode nn st a b c d).2)
        highest_prerelease :=
          List.foldl (regMap BumpNode.prerelease) st.highest_prerelease
            (postNodes (deriveChildNode nn st a b c d).2) } :=
  H st _ _

theorem buildChildren_cons
    (nn : TreeState → Option BumpInstruction → Option BumpInstruction → TreeState × BumpNode)
    (sp pp : Option BumpInstruction) (st : TreeState) (name : String) (rest : List String) :
    buildChildren nn sp pp st (name :: rest) =
      ((buildChildren nn sp pp
          (deriveChildNode nn st sp pp (st.stable_workspace.find? name)
            (st.prerelease_workspace.find? name)).1 rest).1,
        (deriveChildNode nn st sp pp (st.stable_workspace.find? name)
          (st.prerelease_workspace.find? name)).2 ::
        (buildChildren nn sp pp
          (deriveChildNode nn st sp pp (st.stable_workspace.find? name)
            (st.prerelease_workspace.find? name)).1 rest).2) := rfl

theorem buildChildren_char
    (nn : TreeState → Option BumpInstruction → Option BumpInstruction → TreeState × BumpNode)
    (H : nodeCharP nn) (sp pp : Option BumpInstruction) :
    ∀ (names : List String) (st : TreeState),
      (buildChildren nn sp pp st names).1 =
        { st with
          highest_stable :=
            List.foldl (regMap BumpNode.stable) st.highest_stable
              (postForest (buildChildren nn sp pp st names).2)
          highest_prerelease :=
            List.foldl (regMap BumpNode.prerelease) st.highest_prerelease
              (postForest (buildChildren nn sp pp st names).2) } := by
  intro names
  induction names with
  | nil =>
    intro st
    rw [show (buildChildren nn sp pp st []).2 = [] from rfl, postForest_nil]
    rfl
  | cons name rest ih =>
    intro st
    rw [buildChildren_cons]
    dsimp only
    rw [ih, deriveChildNode_char nn H]
    dsimp only
    simp only [postForest_cons, List.foldl_append]

theorem newNode_char : ∀ fuel : Nat, nodeCharP (newNode fuel) := by
  intro fuel
  induction fuel with
  | zero =>
    intro st s p
    show registerNode st (BumpNode.mk s p []) =
      { st with
        highest_stable :=
          List.foldl (regMap BumpNode.stable) st.highest_stable (postNodes (BumpNode.mk s p []))
        highest_prerelease :=
          List.foldl (regMap BumpNode.prerelease) st.highest_prerelease
            (postNodes (BumpNode.mk s p [])) }
    rw [postNodes_mk, postForest_nil]
    simp only [List.nil_append, List.foldl_cons, List.foldl_nil]
    rfl
  | succ fuel ih =>
    intro st s p
    show registerNode (buildChildren (newNode fuel) s p st (childNames s p)).1
        (BumpNode.mk s p (buildChildren (newNode fuel) s p st (childNames s p)).2) =
      { st with
        highest_stable :=
          List.foldl (regMap BumpNode.stable) st.highest_stable
            (postNodes (BumpNode.mk s p (buildChildren (newNode fuel) s p st (childNames s p)).2))
        highest_prerelease :=
          List.foldl (regMap BumpNode.prerelease) st.highest_prerelease
            (postNodes (BumpNode.mk s p (buildChildren (newNode fuel) s p st (childNames s p)).2)) }
    rw [postNodes_mk]
    rw [buildChildren_char (newNode fuel) ih s p (childNames s p) st]
    dsimp only [registerNode]
    simp only [List.foldl_append, List.foldl_cons, List.foldl_nil]

theorem buildRoots_char (fuel : Nat) (rc : ReleaseChannel) :
    ∀ (instrs : List BumpInstruction) (st : TreeState),
      (buildRoots fuel st instrs rc).1 =
        { st with
          highest_stable :=
            List.foldl (regMap BumpNode.stable) st.highest_stable
              (postForest (buildRoots fuel st instrs rc).2)
          highest_prerelease :=
            List.foldl (regMap BumpNode.prerelease) st.highest_prerelease
              (postForest (buildRoots fuel st instrs rc).2) } := by
  intro instrs
  induction instrs with
  | nil =>
    intro st
    rw [show (buildRoots fuel st [] rc).2 = [] from rfl, postForest_nil]
    rfl
  | cons i rest ih =>
    intro st
    cases rc with
    | Stable =>
      show (buildRoots fuel (newNode fuel st (some i)
          (compute_prerelease_bump_instruction
            (st.prerelease_workspace.find? i.package.name)
            (st.stable_workspace.find? i.package.name) (some i) none)).1 rest
          ReleaseChannel.Stable).1 =
        { st with
          highest_stable :=
            List.foldl (regMap BumpNode.stable) st.highest_stable
              (postForest ((newNode fuel st (some i)
                (compute_prerelease_bump_instruction
                  (st.prerelease_workspace.find? i.package.name)
                  (st.stable_workspace.find? i.package.name) (some i) none)).2 ::
                (buildRoots fuel (newNode fuel st (some i)
                  (compute_prerelease_bump_instruction
                    (st.prerelease_workspace.find? i.package.name)
                    (st.stable_workspace.find? i.package.name) (some i) none)).1 rest
                  ReleaseChannel.Stable).2))
          highest_prerelease :=
            List.foldl (regMap BumpNode.prerelease) st.highest_prerelease
              (postForest ((newNode fuel st (some i)
                (compute_prerelease_bump_instruction
                  (st.prerelease_workspace.find? i.package.name)
                  (st.stable_workspace.find? i.package.name) (some i) none)).2 ::
                (buildRoots fuel (newNode fuel st (some i)
                  (compute_prerelease_bump_instruction
                    (st.prerelease_workspace.find? i.package.name)
                    (st.stable_workspace.find? i.package.name) (some i) none)).1 rest
                  ReleaseChannel.Stable).2)) }
      rw [ih, newNode_char fuel]
      dsimp only
      simp only [postForest_cons, List.foldl_append]
    | Prerelease =>
      show (buildRoots fuel (newNode fuel st none (some i)).1 rest
          ReleaseChannel.Prerelease).1 =
        { st with
          highest_stable :=
            List.foldl (regMap BumpNode.stable) st.highest_stable
              (postForest ((newNode fuel st none (some i)).2 ::
                (buildRoots fuel (newNode fuel st none (some i)).1 rest
                  ReleaseChannel.Prerelease).2))
          highest_prerelease :=
            List.foldl (regMap BumpNode.prerelease) st.highest_prerelease
              (postForest ((newNode fuel st none (some i)).2 ::
                (buildRoots fuel (newNode fuel st none (some i)).1 rest
                  ReleaseChannel.Prerelease).2)) }
      rw [ih, newNode_char fuel]
      dsimp only
      simp only [postForest_cons, List.foldl_append]

theorem tree_new_char (fuel : Nat) (sws pws : Workspace)
    (instrs : List BumpInstruction) (rc : ReleaseChannel) :
    (BumpTree.new fuel sws pws instrs rc).stable_workspace = sws
    ∧ (BumpTree.new fuel sws pws instrs rc).prerelease_workspace = pws
    ∧ (BumpTree.new fuel sws pws instrs rc).highest_stable =
        List.foldl (regMap BumpNode.stable) []
          (postForest (BumpTree.new fuel sws pws instrs rc).root_nodes)
    ∧ (BumpTree.new fuel sws pws instrs rc).highest_prerelease =
        List.foldl (regMap BumpNode.prerelease) []
          (postForest (BumpTree.new fuel sws pws instrs rc).root_nodes) := by
  have h := buildRoots_char fuel rc instrs ⟨sws, pws, [], []⟩
  refine ⟨?_, ?_, ?_, ?_⟩
  · show (buildRoots fuel ⟨sws, pws, [], []⟩ instrs rc).1.stable_workspace = sws
    rw [h]
  · show (buildRoots fuel ⟨sws, pws, [], []⟩ instrs rc).1.prerelease_workspace = pws
    rw [h]
  · show (buildRoots fuel ⟨sws, pws, [], []⟩ instrs rc).1.highest_stable =
      List.foldl (regMap BumpNode.stable) []
        (postForest (buildRoots fuel ⟨sws, pws, [], []⟩ instrs rc).2)
    rw [h]
  · show (buildRoots fuel ⟨sws, pws, [], []⟩ instrs rc).1.highest_prerelease =
      List.foldl (regMap BumpNode.prerelease) []
        (postForest (buildRoots fuel ⟨sws, pws, [], []⟩ instrs rc).2)
    rw [h]

/-! Association-list lemmas. -/

theorem alookup_areplace_self :
    ∀ (m : List (String × BumpNode)) (k : String) (v e : BumpNode),
      alookup m k = some e → alookup (areplace m k v) k = some v := by
  intro m
  induction m with
  | nil => intro k v e h; simp [alookup] at h
  | cons kv rest ih =>
    intro k v e h
    obtain ⟨k1, v1⟩ := kv
    by_cases hk : k1 = k
    · simp [areplace, alookup, hk]
    · simp only [alookup, if_neg hk] at h
      simp only [areplace, if_neg hk, alookup, if_neg hk]
      exact ih k v e h

theorem alookup_areplace_ne :
    ∀ (m : List (String × BumpNode)) (k : String) (v : BumpNode) (k2 : String),
      k2 ≠ k → alookup (areplace m k v) k2 = alookup m k2 := by
  intro m
  induction m with
  | nil => intro k v k2 _; rfl
  | cons kv rest ih =>
    intro k v k2 hne
    obtain ⟨k1, v1⟩ := kv
    by_cases hk : k1 = k
    · subst hk
      simp only [areplace, if_pos rfl, alookup]
      rw [if_neg (fun h => hne h.symm), if_neg (fun h => hne h.symm)]
    · simp only [areplace, if_neg hk, alookup]
      by_cases h2 : k1 = k2
      · rw [if_pos h2, if_pos h2]
      · rw [if_neg h2, if_neg h2]
        exact ih k v k2 hne

/-! Machinery describing the content of the highest maps: `recordOf` is the
first-maximum-wins selection over the construction-ordered node list, which
the registration fold is proven to realise. -/

/-- Node carries an instruction on channel `get` for package `name`. -/
def chNamed (get : BumpNode → Option BumpInstruction) (name : String) (n : BumpNode) : Bool :=
  match get n with
  | some i => i.package.name == name
  | none => false

/-- Magnitude rank of a node's instruction on channel `get`. -/
def chRank (get : BumpNode → Option BumpInstruction) (n : BumpNode) : Nat :=
  match get n with
  | some i => i.bump_type.rank
  | none => 0

/-- Keep the accumulator unless the incoming node's magnitude is strictly
larger: the first node attaining the maximum wins ties. -/
def pickHighest (get : BumpNode → Option BumpInstruction)
    (acc : Option BumpNode) (n : BumpNode) : Option BumpNode :=
  match acc with
  | none => some n
  | some m => if chRank get m < chRank get n then some n else acc

/-- Node recorded for `name` after processing `ns` in order: the first node
in `ns` carrying a `name` instruction on the channel whose magnitude is never
strictly exceeded later. -/
def recordOf (get : BumpNode → Option BumpInstruction)
    (ns : List BumpNode) (name : String) : Option BumpNode :=
  List.foldl (pickHighest get) none (ns.filter (chNamed get name))

theorem foldl_pick_mem (get : BumpNode → Option BumpInstruction) :
    ∀ (l : List BumpNode) (acc : Option BumpNode) (x : BumpNode),
      List.foldl (pickHighest get) acc l = some x → (acc = some x ∨ x ∈ l) := by
  intro l
  induction l with
  | nil => intro acc x h; exact Or.inl h
  | cons n rest ih =>
    intro acc x h
    rcases ih (pickHighest get acc n) x h with h1 | h1
    · cases acc with
      | none =>
        right
        obtain rfl : n = x := Option.some.inj h1
        exact List.mem_cons_self n rest
      | some m =>
        rw [pickHighest] at h1
        split_ifs at h1
        · right
          obtain rfl : n = x := Option.some.inj h1
          exact List.mem_cons_self n rest
        · exact Or.inl h1
    · exact Or.inr (List.mem_cons_of_mem n h1)

theorem foldl_pick_named (get : BumpNode → Option BumpInstruction) (name : String) :
    ∀ (l : List BumpNode) (acc : Option BumpNode) (x : BumpNode),
      (∀ y ∈ l, chNamed get name y = true) →
      (∀ y, acc = some y → chNamed get name y = true) →
      List.foldl (pickHighest get) acc l = some x → chNamed get name x = true := by
  intro l
  induction l with
  | nil => intro acc x _ hacc h; exact hacc x h
  | cons n rest ih =>
    intro acc x hl hacc h
    refine ih (pickHighest get acc n) x (fun y hy => hl y (List.mem_cons_of_mem n hy))
      ?_ h
    intro y hy
    cases acc with
    | none =>
      obtain rfl : n = y := Option.some.inj hy
      exact hl n (List.mem_cons_self n rest)
    | some m =>
      rw [pickHighest] at hy
      split_ifs at hy
      · obtain rfl : n = y := Option.some.inj hy
        exact hl n (List.mem_cons_self n rest)
      · exact hacc y hy

theorem foldl_pick_max (get : BumpNode → Option BumpInstruction) :
    ∀ (l : List BumpNode) (acc : Option BumpNode) (x : BumpNode),
      List.foldl (pickHighest get) acc l = some x →
      (∀ n ∈ l, chRank get n ≤ chRank get x)
        ∧ (∀ y, acc = some y → chRank get y ≤ chRank get x) := by
  intro l
  induction l with
  | nil =>
    intro acc x h
    refine ⟨fun n hn => absurd hn (List.not_mem_nil n), fun y hy => ?_⟩
    rw [hy] at h
    rw [Option.some.inj h]
  | cons n rest ih =>
    intro acc x h
    obtain ⟨h1, h2⟩ := ih (pickHighest get acc n) x h
    constructor
    · intro m hm
      rcases List.mem_cons.mp hm with rfl | hm2
      · cases hacc : acc with
        | none => exact h2 m (by rw [hacc]; rfl)
        | some a =>
          by_cases hr : chRank get a < chRank get m
          · exact h2 m (by rw [hacc]; simp [pickHighest, hr])
          · have := h2 a (by rw [hacc]; simp [pickHighest, hr])
            omega
      · exact h1 m hm2
    · intro y hy
      cases hacc : acc with
      | none => rw [hacc] at hy; cases hy
      | some a =>
        rw [hacc] at hy
        obtain rfl : a = y := Option.some.inj hy
        by_cases hr : chRank get a < chRank get n
        · have := h2 n (by rw [hacc]; simp [pickHighest, hr])
          omega
        · exact h2 a (by rw [hacc]; simp [pickHighest, hr])

theorem recordOf_mem (get : BumpNode → Option BumpInstruction)
    (ns : List BumpNode) (name : String) (x : BumpNode)
    (h : recordOf get ns name = some x) : x ∈ ns := by
  rcases foldl_pick_mem get (ns.filter (chNamed get name)) none x h with h1 | h1
  · cases h1
  · exact List.mem_of_mem_filter h1

theorem recordOf_named (get : BumpNode → Option BumpInstruction)
    (ns : List BumpNode) (name : String) (x : BumpNode)
    (h : recordOf get ns name = some x) : chNamed get name x = true := by
  refine foldl_pick_named get name (ns.filter (chNamed get name)) none x ?_ ?_ h
  · intro y hy; exact List.of_mem_filter hy
  · intro y hy; cases hy

theorem recordOf_max (get : BumpNode → Option BumpInstruction)
    (ns : List BumpNode) (name : String) (x : BumpNode)
    (h : recordOf get ns name = some x) :
    ∀ n ∈ ns, chNamed get name n = true → chRank get n ≤ chRank get x := by
  intro n hn hname
  exact (foldl_pick_max get (ns.filter (chNamed get name)) none x h).1 n
    (List.mem_filter.mpr ⟨hn, hname⟩)

theorem recordOf_snoc (get : BumpNode → Option BumpInstruction)
    (l : List BumpNode) (n : BumpNode) (name : String) :
    recordOf get (l ++ [n]) name =
      if chNamed get name n = true then pickHighest get (recordOf get l name) n
      else recordOf get l name := by
  unfold recordOf
  rw [List.filter_append]
  by_cases hc : chNamed get name n = true
  · rw [if_pos hc]
    simp [hc, List.foldl_append]
  · rw [if_neg hc]
    simp [hc]

/-- The highest map `m` records, for each name, exactly the first-maximum
node of the already-processed construction sequence. -/
def mapMatches (get : BumpNode → Option BumpInstruction)
    (m : List (String × BumpNode)) (processed : List BumpNode) : Prop :=
  ∀ name, alookup m name = recordOf get processed name

theorem mapMatches_nil (get : BumpNode → Option BumpInstruction) :
    mapMatches get [] [] := fun _ => rfl

theorem mapMatches_step (get : BumpNode → Option BumpInstruction)
    (m : List (String × BumpNode)) (processed : List BumpNode) (n : BumpNode)
    (hm : mapMatches get m processed) :
    mapMatches get (regMap get m n) (processed ++ [n]) := by
  intro name
  rw [recordOf_snoc]
  cases hget : get n with
  | none =>
    have hch : chNamed get name n = false := by simp [chNamed, hget]
    rw [if_neg (by simp [hch])]
    simp only [regMap, hget]
    exact hm name
  | some i =>
    have hreg : regMap get m n = updateHighest get m i.package.name i n := by
      simp [regMap, hget]
    rw [hreg]
    by_cases hname : i.package.name = name
    · subst hname
      have hch : chNamed get i.package.name n = true := by simp [chNamed, hget]
      rw [if_pos hch]
      unfold updateHighest
      cases hlk : alookup m i.package.name with
      | none =>
        dsimp only
        have hrec : recordOf get processed i.package.name = none := by
          rw [← hm i.package.name, hlk]
        rw [hrec]
        simp [alookup, pickHighest]
      | some e =>
        dsimp only
        have hrec : recordOf get processed i.package.name = some e := by
          rw [← hm i.package.name, hlk]
        have hnm : chNamed get i.package.name e = true :=
          recordOf_named get processed i.package.name e hrec
        obtain ⟨j, hj⟩ : ∃ j, get e = some j := by
          cases hge : get e
          · rw [chNamed, hge] at hnm; cases hnm
          · exact ⟨_, rfl⟩
        rw [hrec]
        have hcond : optRankLt ((get e).map BumpInstruction.bump_type) (some i.bump_type)
            = decide (chRank get e < chRank get n) := by
          simp [hj, optRankLt, chRank, hget]
        by_cases hlt : chRank get e < chRank get n
        · rw [if_pos (by rw [hcond]; exact decide_eq_true hlt)]
          rw [alookup_areplace_self m i.package.name n e hlk]
          simp [pickHighest, hlt]
        · rw [if_neg (by rw [hcond]; simp [hlt])]
          rw [hlk]
          simp [pickHighest, hlt]
    · have hch : chNamed get name n = false := by
        simp [chNamed, hget]
        exact fun h => hname h
      rw [if_neg (by simp [hch])]
      rw [← hm name]
      unfold updateHighest
      cases hlk : alookup m i.package.name with
      | none =>
        dsimp only
        simp only [alookup]
        rw [if_neg hname]
      | some e =>
        dsimp only
        split_ifs
        · exact alookup_areplace_ne m i.package.name n name (fun h => hname h.symm)
        · rfl

theorem mapMatches_fold (get : BumpNode → Option BumpInstruction) :
    ∀ (ns : List BumpNode) (m : List (String × BumpNode)) (processed : List BumpNode),
      mapMatches get m processed →
      mapMatches get (List.foldl (regMap get) m ns) (processed ++ ns) := by
  intro ns
  induction ns with
  | nil => intro m processed h; simpa using h
  | cons n rest ih =>
    intro m processed h
    have h3 := ih (regMap get m n) (processed ++ [n]) (mapMatches_step get m processed n h)
    simpa [List.append_assoc] using h3

/-- Consequences of a recorded entry: the node is one of the processed nodes,
it carries a `name` instruction on the channel, and that instruction's
magnitude is maximal among all processed nodes carrying one for `name`. -/
theorem recordOf_some_spec (get : BumpNode → Option BumpInstruction)
    (ns : List BumpNode) (name : String) (node : BumpNode)
    (h : recordOf get ns name = some node) :
    node ∈ ns ∧ ∃ i, get node = some i ∧ i.package.name = name
      ∧ ∀ m ∈ ns, ∀ j, get m = some j → j.package.name = name →
          j.bump_type.rank ≤ i.bump_type.rank := by
  refine ⟨recordOf_mem get ns name node h, ?_⟩
  have hnm := recordOf_named get ns name node h
  obtain ⟨i, hi⟩ : ∃ i, get node = some i := by
    cases hgi : get node
    · rw [chNamed, hgi] at hnm; cases hnm
    · exact ⟨_, rfl⟩
  have hiname : i.package.name = name := by
    rw [chNamed, hi] at hnm
    exact eq_of_beq hnm
  refine ⟨i, hi, hiname, ?_⟩
  intro m hm j hj hjname
  have hr := recordOf_max get ns name node h m hm (by simp [chNamed, hj, hjname])
  simp only [chRank, hi, hj] at hr
  exact hr

theorem tree_mapMatches (fuel : Nat) (sws pws : Workspace)
    (instrs : List BumpInstruction) (rc : ReleaseChannel) :
    mapMatches BumpNode.stable (BumpTree.new fuel sws pws instrs rc).highest_stable
      (postForest (BumpTree.new fuel sws pws instrs rc).root_nodes)
    ∧ mapMatches BumpNode.prerelease (BumpTree.new fuel sws pws instrs rc).highest_prerelease
      (postForest (BumpTree.new fuel sws pws instrs rc).root_nodes) := by
  obtain ⟨_, _, h3, h4⟩ := tree_new_char fuel sws pws instrs rc
  constructor
  · intro name
    rw [h3]
    have := mapMatches_fold BumpNode.stable
      (postForest (BumpTree.new fuel sws pws instrs rc).root_nodes) [] []
      (mapMatches_nil BumpNode.stable)
    simpa using this name
  · intro name
    rw [h4]
    have := mapMatches_fold BumpNode.prerelease
      (postForest (BumpTree.new fuel sws pws instrs rc).root_nodes) [] []
      (mapMatches_nil BumpNode.prerelease)
    simpa using this name

/-- C1: after tree construction each highest map records, per package name,
exactly the first node of the construction (post-order) sequence whose
magnitude on that channel is never strictly exceeded later (so an entry is
replaced only on a strictly larger magnitude and the first node reaching the
maximum wins ties); consequently a recorded node is one of the constructed
nodes, carries an instruction for that name on that channel, and its
magnitude is maximal among all constructed nodes carrying one — a maximum
that does not depend on the order in which dependents were visited. -/
theorem highest_maps_track_max (fuel : Nat) (sws pws : Workspace)
    (instrs : List BumpInstruction) (rc : ReleaseChannel) (t : BumpTree)
    (ht : t = BumpTree.new fuel sws pws instrs rc)
    (ns : List BumpNode) (hns : ns = postForest t.root_nodes) :
    (∀ name, alookup t.highest_stable name = recordOf BumpNode.stable ns name)
    ∧ (∀ name, alookup t.highest_prerelease name = recordOf BumpNode.prerelease ns name)
    ∧ (∀ name node, alookup t.highest_stable name = some node →
        node ∈ ns ∧ ∃ i, node.stable = some i ∧ i.package.name = name
          ∧ ∀ m ∈ ns, ∀ j, m.stable = some j → j.package.name = name →
              j.bump_type.rank ≤ i.bump_type.rank)
    ∧ (∀ name node, alookup t.highest_prerelease name = some node →
        node ∈ ns ∧ ∃ i, node.prerelease = some i ∧ i.package.name = name
          ∧ ∀ m ∈ ns, ∀ j, m.prerelease = some j → j.package.name = name →
              j.bump_type.rank ≤ i.bump_type.rank) := by
  subst ht
  subst hns
  obtain ⟨hmS, hmP⟩ := tree_mapMatches fuel sws pws instrs rc
  refine ⟨hmS, hmP, ?_, ?_⟩
  · intro name node h
    rw [hmS name] at h
    exact recordOf_some_spec BumpNode.stable _ name node h
  · intro name node h
    rw [hmP name] at h
    exact recordOf_some_spec BumpNode.prerelease _ name node h

/-- Nodes of the concrete a/b/c stable-major example tree. -/
def exNodeB : BumpNode := BumpNode.mk (some ⟨exPkgB, ⟨0, 2, 0, []⟩⟩) none []

def exNodeC : BumpNode := BumpNode.mk (some ⟨exPkgC, ⟨3, 0, 0, []⟩⟩) none []

def exNodeA : BumpNode := BumpNode.mk (some exRootA) none [exNodeB, exNodeC]

/-- Witness for C1: in the a/b/c example the node recorded for "a" is a
constructed node carrying a stable instruction for "a" of maximal magnitude. -/
theorem highest_maps_track_max_witness :
    exNodeA ∈ postForest exTree.root_nodes
      ∧ ∃ i, exNodeA.stable = some i ∧ i.package.name = ("a")
        ∧ ∀ m ∈ postForest exTree.root_nodes, ∀ j, m.stable = some j →
            j.package.name = ("a") → j.bump_type.rank ≤ i.bump_type.rank :=
  (highest_maps_track_max 3 exStableWs exEmptyWs [exRootA] ReleaseChannel.Stable exTree rfl
    (postForest exTree.root_nodes) rfl).2.2.1 ("a") exNodeA rfl

/-- C6: a dependent with a stable package whose parent carries a stable
instruction receives a derived Major bump of its own version under a Major
parent and a derived Patch bump otherwise; in the spec's example, bumping
stable a:1.0.0 by major with dependents b:0.1.0 and c:2.3.1 records
a→2.0.0, b→0.2.0 and c→3.0.0 in highest_stable. -/
theorem derive_child_stable_spec :
    (∀ (fuel : Nat) (st : TreeState) (spi : BumpInstruction)
        (ppi : Option BumpInstruction) (c : Package) (pc : Option Package),
      (spi.bump_type = BumpType.Major →
        (deriveChildNode (newNode fuel) st (some spi) ppi (some c) pc).2.stable =
          some ⟨c, c.version.bump BumpType.Major EndUserInitiated.No⟩)
      ∧ ((spi.bump_type = BumpType.Minor ∨ spi.bump_type = BumpType.Patch) →
        (deriveChildNode (newNode fuel) st (some spi) ppi (some c) pc).2.stable =
          some ⟨c, c.version.bump BumpType.Patch EndUserInitiated.No⟩))
    ∧ ((alookup exTree.highest_stable ("a")).bind BumpNode.stable).map
        BumpInstruction.next_version = some ⟨2, 0, 0, []⟩
    ∧ ((alookup exTree.highest_stable ("b")).bind BumpNode.stable).map
        BumpInstruction.next_version = some ⟨0, 2, 0, []⟩
    ∧ ((alookup exTree.highest_stable ("c")).bind BumpNode.stable).map
        BumpInstruction.next_version = some ⟨3, 0, 0, []⟩ := by
  refine ⟨?_, by decide, by decide, by decide⟩
  intro fuel st spi ppi c pc
  constructor
  · intro hbt
    simp only [deriveChildNode]
    rw [newNode_node_stable]
    simp [deriveChildStable, hbt]
  · intro hbt
    simp only [deriveChildNode]
    rw [newNode_node_stable]
    rcases hbt with hbt | hbt <;> simp [deriveChildStable, hbt]

/-- Counterexample for C8: in a prerelease-channel build whose root dependent
exists only on the prerelease side, the derived child node carries neither a
stable nor a prerelease instruction and package_name hits its panic branch
(modelled as none). -/
theorem bump_node_missing_instruction_counterexample :
    (exPreTree.root_nodes.map (fun n => n.children.map
      (fun c => (c.stable, c.prerelease, c.package_name)))) = [[(none, none, none)]] := by
  decide

theorem package_name_of_stable (n : BumpNode) (h : n.stable ≠ none) :
    n.package_name ≠ none := by
  cases hs : n.stable with
  | none => exact absurd hs h
  | some i => simp [BumpNode.package_name, hs]

theorem package_name_of_prerelease (n : BumpNode) (h : n.prerelease ≠ none) :
    n.package_name ≠ none := by
  cases hs : n.stable with
  | some i => simp [BumpNode.package_name, hs]
  | none =>
    cases hp : n.prerelease with
    | none => exact absurd hp h
    | some i => simp [BumpNode.package_name, hs, hp]

theorem chNamed_ne_none (get : BumpNode → Option BumpInstruction) (name : String)
    (n : BumpNode) (h : chNamed get name n = true) : get n ≠ none := by
  intro hn
  rw [chNamed, hn] at h
  cases h

theorem buildRoots_roots_instr (fuel : Nat) (rc : ReleaseChannel) :
    ∀ (instrs : List BumpInstruction) (st : TreeState) (n : BumpNode),
      n ∈ (buildRoots fuel st instrs rc).2 →
      (rc = ReleaseChannel.Stable → n.stable ≠ none)
        ∧ (rc = ReleaseChannel.Prerelease → n.prerelease ≠ none) := by
  intro instrs
  induction instrs with
  | nil =>
    intro st n hn
    rw [show (buildRoots fuel st [] rc).2 = [] from rfl] at hn
    cases hn
  | cons i rest ih =>
    intro st n hn
    cases rc with
    | Stable =>
      rw [show (buildRoots fuel st (i :: rest) ReleaseChannel.Stable).2 =
          (newNode fuel st (some i) (compute_prerelease_bump_instruction
            (st.prerelease_workspace.find? i.package.name)
            (st.stable_workspace.find? i.package.name) (some i) none)).2 ::
          (buildRoots fuel (newNode fuel st (some i) (compute_prerelease_bump_instruction
            (st.prerelease_workspace.find? i.package.name)
            (st.stable_workspace.find? i.package.name) (some i) none)).1 rest
            ReleaseChannel.Stable).2 from rfl] at hn
      rcases List.mem_cons.mp hn with rfl | hn2
      · constructor
        · intro _
          rw [newNode_node_stable]
          simp
        · intro hrc
          cases hrc
      · exact ih _ n hn2
    | Prerelease =>
      rw [show (buildRoots fuel st (i :: rest) ReleaseChannel.Prerelease).2 =
          (newNode fuel st none (some i)).2 ::
          (buildRoots fuel (newNode fuel st none (some i)).1 rest
            ReleaseChannel.Prerelease).2 from rfl] at hn
      rcases List.mem_cons.mp hn with rfl | hn2
      · constructor
        · intro hrc
          cases hrc
        · intro _
          rw [newNode_node_prerelease]
          simp
      · exact ih _ n hn2

/-- C8 amended: every root node carries the instruction of the channel it
was requested on, and every node recorded in a highest map carries that
channel's instruction, so package_name never hits its panic branch on those
nodes; derived child nodes, however, may carry neither instruction (see the
counterexample). -/
theorem node_instruction_presence (fuel : Nat) (sws pws : Workspace)
    (instrs : List BumpInstruction) (rc : ReleaseChannel) (t : BumpTree)
    (ht : t = BumpTree.new fuel sws pws instrs rc) :
    (∀ n ∈ t.root_nodes,
      ((rc = ReleaseChannel.Stable → n.stable ≠ none)
        ∧ (rc = ReleaseChannel.Prerelease → n.prerelease ≠ none)
        ∧ n.package_name ≠ none))
    ∧ (∀ name node, alookup t.highest_stable name = some node →
        node.stable ≠ none ∧ node.package_name ≠ none)
    ∧ (∀ name node, alookup t.highest_prerelease name = some node →
        node.prerelease ≠ none ∧ node.package_name ≠ none) := by
  subst ht
  obtain ⟨hmS, hmP⟩ := tree_mapMatches fuel sws pws instrs rc
  refine ⟨?_, ?_, ?_⟩
  · intro n hn
    have hr := buildRoots_roots_instr fuel rc instrs ⟨sws, pws, [], []⟩ n hn
    refine ⟨hr.1, hr.2, ?_⟩
    cases rc with
    | Stable => exact package_name_of_stable n (hr.1 rfl)
    | Prerelease => exact package_name_of_prerelease n (hr.2 rfl)
  · intro name node h
    rw [hmS name] at h
    have hs := chNamed_ne_none BumpNode.stable name node
      (recordOf_named BumpNode.stable _ name node h)
    exact ⟨hs, package_name_of_stable node hs⟩
  · intro name node h
    rw [hmP name] at h
    have hp := chNamed_ne_none BumpNode.prerelease name node
      (recordOf_named BumpNode.prerelease _ name node h)
    exact ⟨hp, package_name_of_prerelease node hp⟩

/-- Witness for C8's amended statement: the node recorded for "a" in the
a/b/c example carries its stable instruction and a defined package name. -/
theorem node_instruction_presence_witness :
    exNodeA.stable ≠ none ∧ exNodeA.package_name ≠ none :=
  (node_instruction_presence 3 exStableWs exEmptyWs [exRootA] ReleaseChannel.Stable
    exTree rfl).2.1 ("a") exNodeA rfl

/-- C9: tree construction never writes a version: the workspaces held by the
result are the ones passed in, so every package lookup yields the same
version before and after the build. -/
theorem build_preserves_versions (fuel : Nat) (sws pws : Workspace)
    (instrs : List BumpInstruction) (rc : ReleaseChannel) (t : BumpTree)
    (ht : t = BumpTree.new fuel sws pws instrs rc) :
    t.stable_workspace = sws ∧ t.prerelease_workspace = pws
    ∧ (∀ name, (t.stable_workspace.find? name).map Package.version =
        (sws.find? name).map Package.version)
    ∧ (∀ name, (t.prerelease_workspace.find? name).map Package.version =
        (pws.find? name).map Package.version) := by
  subst ht
  obtain ⟨h1, h2, _, _⟩ := tree_new_char fuel sws pws instrs rc
  exact ⟨h1, h2, fun name => by rw [h1], fun name => by rw [h2]⟩

/-- Witness for C9 at the a/b/c example tree. -/
theorem build_preserves_versions_witness :
    exTree.stable_workspace = exStableWs ∧ exTree.prerelease_workspace = exEmptyWs
    ∧ (∀ name, (exTree.stable_workspace.find? name).map Package.version =
        (exStableWs.find? name).map Package.version)
    ∧ (∀ name, (exTree.prerelease_workspace.find? name).map Package.version =
        (exEmptyWs.find? name).map Package.version) :=
  build_preserves_versions 3 exStableWs exEmptyWs [exRootA] ReleaseChannel.Stable exTree rfl

end Cwvt
